import Mathlib

/-!
Shallow embedding of the `otpshka` OTP library (`src/lib.rs`, `src/hotp.rs`,
`src/totp.rs`).  Machine integers are modelled as `Nat` with explicit
`% 2 ^ w` reductions wherever the Rust code can wrap; release semantics are
embedded, so `debug_assert!` lines are no-ops and arithmetic wraps silently.
The HMAC primitive from `ring` is an external collaborator and is modelled as
an abstract signing function `List Nat → List Nat` stored in the engine; the
well-formedness predicate `Hotp.wf` records the only facts the library relies
on: every signature has the algorithm's output length and consists of bytes.
-/

namespace Otpshka

/-- Enum `Algorithm` from `src/lib.rs`: selects the HMAC hash function. -/
inductive Algorithm : Type
  | SHA1
  | SHA256
  | SHA512
deriving DecidableEq, Repr

/-- Impl of `Default` from `src/lib.rs`: `Algorithm::SHA1`. -/
def Algorithm.default : Algorithm := Algorithm.SHA1

/-- Signature length in bytes produced by the external `ring::hmac`
collaborator for each algorithm: 20 for SHA-1, 32 for SHA-256, 64 for
SHA-512. -/
def Algorithm.outLen : Algorithm → Nat
  | Algorithm.SHA1 => 20
  | Algorithm.SHA256 => 32
  | Algorithm.SHA512 => 64

/-- Wrapping `u64` addition: release semantics of `time + time_offset` in
`TOTP::verify`. -/
def wadd (a b : Nat) : Nat := (a + b) % 2 ^ 64

/-- Wrapping `u64` subtraction: release semantics of `time - time_offset` in
`TOTP::verify` (a debug build would panic on underflow instead). -/
def wsub (a b : Nat) : Nat := (a + (2 ^ 64 - b % 2 ^ 64)) % 2 ^ 64

/-- Big-endian serialization of a `u64` counter, `counter.to_be_bytes()` in
`Hotp::sign`; byte `i` holds bits `56 - 8*i` through `63 - 8*i` of
`counter mod 2^64`. -/
def u64be (n : Nat) : List Nat :=
  [n / 2 ^ 56 % 256, n / 2 ^ 48 % 256, n / 2 ^ 40 % 256, n / 2 ^ 32 % 256,
   n / 2 ^ 24 % 256, n / 2 ^ 16 % 256, n / 2 ^ 8 % 256, n % 256]

/-- Big-endian `u32` read of four consecutive signature bytes starting at
`offset`: the `ptr::copy_nonoverlapping` plus `to_be()` step of
`Hotp::generate_num`.  An out-of-range index contributes byte 0; such reads do
not occur for well-formed engines, whose signatures are long enough. -/
def beU32At (sign : List Nat) (offset : Nat) : Nat :=
  sign.getD offset 0 * 2 ^ 24 + sign.getD (offset + 1) 0 * 2 ^ 16 +
    sign.getD (offset + 2) 0 * 2 ^ 8 + sign.getD (offset + 3) 0

/-- Struct `Hotp` from `src/hotp.rs`: stores the keyed HMAC context.  The
external `ring::hmac::Key` is modelled as the chosen algorithm together with
the signing function it determines. -/
structure Hotp : Type where
  alg : Algorithm
  hmac : List Nat → List Nat

/-- Fn `Hotp::new`: builds the engine from `algorithm` and `secret` via the
external `ring::hmac::Key::new`, modelled by the parameter `ringHmac`.
Release semantics: the `debug_assert_ne!(secret.len(), 0)` is a no-op, so no
emptiness check is performed, and the return type (`Self`, not a `Result`)
has no error path. -/
def Hotp.new (ringHmac : Algorithm → List Nat → List Nat → List Nat)
    (algorithm : Algorithm) (secret : List Nat) : Hotp :=
  { alg := algorithm, hmac := ringHmac algorithm secret }

/-- Assumptions about the external HMAC collaborator: every signature has the
algorithm's output length and consists of bytes (values below 256). -/
def Hotp.wf (h : Hotp) : Prop :=
  ∀ msg : List Nat,
    (h.hmac msg).length = h.alg.outLen ∧ ∀ b ∈ h.hmac msg, b < 256

/-- Fn `Hotp::sign`: HMAC signature over the 8-byte big-endian encoding of
`counter`. -/
def Hotp.sign (h : Hotp) (counter : Nat) : List Nat :=
  h.hmac (u64be counter)

/-- Fn `Hotp::generate_num`: RFC 4226 dynamic truncation.  The offset is
`sign[sign.len() - 1] & 15`, four bytes are read big-endian from there, the
sign bit is cleared with `& 0x7fffffff` and the result is reduced modulo
`BASE.pow(digits)`.  That power is a wrapping `u32` power in release builds,
hence the `% 2 ^ 32`; for `digits ≥ 32` the wrapped modulus is 0, where the
Rust `%` would panic — every theorem below stays within `digits ≤ 9`. -/
def Hotp.generate_num (h : Hotp) (counter : Nat) (digits : Nat) : Nat :=
  (beU32At (h.sign counter)
      ((h.sign counter).getD ((h.sign counter).length - 1) 0 &&& 15) &&&
    0x7fffffff) % (10 ^ digits % 2 ^ 32)

/-- Digit loop of `u32::from_str_radix(_, 10)`: folds the characters into an
accumulator, checking `acc * 10 + digit` against `2 ^ 32` at every step (the
`checked_mul`/`checked_add` pair); any non-digit character or overflow aborts
with `none`. -/
def parseDigitsAcc : List Char → Nat → Option Nat
  | [], acc => some acc
  | c :: cs, acc =>
    if 48 ≤ c.toNat ∧ c.toNat ≤ 57 then
      if acc * 10 + (c.toNat - 48) < 2 ^ 32 then
        parseDigitsAcc cs (acc * 10 + (c.toNat - 48))
      else none
    else none

/-- The `u32::from_str_radix(token, 10)` call used by both `verify`
functions: an empty string fails, one leading plus character is stripped (a
bare plus fails), and the remaining characters go through `parseDigitsAcc`.
A leading minus is not stripped for unsigned types and fails as a
non-digit. -/
def u32FromStrRadix10 (s : List Char) : Option Nat :=
  match s with
  | [] => none
  | c :: rest =>
    if c = '+' then
      match rest with
      | [] => none
      | _ :: _ => parseDigitsAcc rest 0
    else parseDigitsAcc s 0

/-- Decimal digit characters of `n`, most significant first, computed with
explicit fuel (structural recursion); `decChars (n + 1) n` always has enough
fuel.  Models the digit production of Rust's `Display` for unsigned
integers. -/
def decChars : Nat → Nat → List Char
  | 0, _ => []
  | fuel + 1, n =>
    if n < 10 then [Nat.digitChar n]
    else decChars fuel (n / 10) ++ [Nat.digitChar (n % 10)]

/-- Decimal representation of `n`, most significant digit first. -/
def natDecChars (n : Nat) : List Char := decChars (n + 1) n

/-- Left padding with ASCII zeros up to `width` characters (no effect when
`s` already has `width` characters or more). -/
def zeroPadTo (s : List Char) (width : Nat) : List Char :=
  List.replicate (width - s.length) '0' ++ s

/-- The zero-padded minimum-width formatting performed by the `write!` call
in `Hotp::generate_to_ptr`: decimal digits of `n`, left-padded with zeros to
at least `width` characters. -/
def fmtZeroPad (n width : Nat) : List Char := zeroPadTo (natDecChars n) width

/-- Fn `Hotp::generate_to` (via `generate_to_ptr`): derives the number with
`digits = len as u8` (a `usize → u8` truncation, hence `% 256`) and writes
its zero-padded decimal form into the caller's buffer of length `len`; the
buffer receives exactly this character sequence whenever it fits. -/
def Hotp.generate_to (h : Hotp) (counter : Nat) (len : Nat) : List Char :=
  fmtZeroPad (h.generate_num counter (len % 256)) len

/-- Fn `Hotp::verify`: parse the token as a `u32`, then compare against
`generate_num` at `digits = token.len() as u8`.  Rust measures the UTF-8 byte
length; it coincides with the character count whenever parsing succeeds,
since successful tokens are ASCII, and the length is unused otherwise. -/
def Hotp.verify (h : Hotp) (token : String) (counter : Nat) : Bool :=
  match u32FromStrRadix10 token.data with
  | some expected => h.generate_num counter (token.data.length % 256) == expected
  | none => false

/-- Struct `TOTP` from `src/totp.rs`: the inner HOTP engine plus the network
delay allowance `skew` (a `u8`, in seconds) and the time window `window`
(a `u64`, in seconds). -/
structure TOTP : Type where
  inner : Hotp
  skew : Nat
  window : Nat

/-- Fn `TOTP::new`: wraps `Hotp::new` and sets `skew = 1`, `window = 30`. -/
def TOTP.new (ringHmac : Algorithm → List Nat → List Nat → List Nat)
    (algorithm : Algorithm) (secret : List Nat) : TOTP :=
  { inner := Hotp.new ringHmac algorithm secret, skew := 1, window := 30 }

/-- Fn `TOTP::sign`: delegates to the inner engine at counter
`time / window`.  Rust `u64` division panics when `window = 0`; `TOTP::new`
always sets `window = 30`, and Lean's `time / 0 = 0` stands in for the
panicking execution. -/
def TOTP.sign (t : TOTP) (time : Nat) : List Nat :=
  t.inner.sign (time / t.window)

/-- Fn `TOTP::generate_num`: delegates at counter `time / window`. -/
def TOTP.generate_num (t : TOTP) (time : Nat) (digits : Nat) : Nat :=
  t.inner.generate_num (time / t.window) digits

/-- Fn `TOTP::generate_to`: delegates at counter `time / window`. -/
def TOTP.generate_to (t : TOTP) (time : Nat) (len : Nat) : List Char :=
  t.inner.generate_to (time / t.window) len

/-- The `for time_offset in 1..=skew` loop of `TOTP::verify`, with `k`
iterations remaining and current offset `off`: checks the counter at
`(time + off) / window` and then at `(time - off) / window` — wrapping `u64`
arithmetic on the offset in seconds — advancing to `off + 1` when neither
matches. -/
def TOTP.verifyOffsets (t : TOTP) (expected len time : Nat) : Nat → Nat → Bool
  | _, 0 => false
  | off, k + 1 =>
    if t.inner.generate_num (wadd time off / t.window) len == expected then true
    else if t.inner.generate_num (wsub time off / t.window) len == expected then
      true
    else TOTP.verifyOffsets t expected len time (off + 1) k

/-- Fn `TOTP::verify`: parse the token, check the exact window
`time / window` first, then scan offsets `1..=skew` in seconds via
`TOTP.verifyOffsets`. -/
def TOTP.verify (t : TOTP) (token : String) (time : Nat) : Bool :=
  match u32FromStrRadix10 token.data with
  | some expected =>
    if t.inner.generate_num (time / t.window) (token.data.length % 256)
        == expected then true
    else TOTP.verifyOffsets t expected (token.data.length % 256) time 1 t.skew
  | none => false

/-- Decimal value denoted by a string of digit characters, folded onto an
initial accumulator `a`; mirrors the accumulator discipline of both the
parser and the digit renderer. -/
def charsValFrom (a : Nat) (s : List Char) : Nat :=
  s.foldl (fun b c => b * 10 + (c.toNat - 48)) a

/-- Decimal value denoted by a string of digit characters; used to state what
a rendered code means. -/
def charsVal (s : List Char) : Nat := charsValFrom 0 s

/-- Parsing as the specification words it for `Verify`: the token is accepted
exactly when it is a nonempty string of ASCII decimal digits whose value fits
in 32 bits; any non-digit character fails.  Spec-side definition, to be
compared with the source-side `u32FromStrRadix10`. -/
def specDigitsParse (s : List Char) : Option Nat :=
  if s ≠ [] ∧ (∀ c ∈ s, 48 ≤ c.toNat ∧ c.toNat ≤ 57) ∧ charsVal s < 2 ^ 32 then
    some (charsVal s)
  else none

/-- Concrete stand-in for the external HMAC: reduces message bytes modulo
256, pads with zeros, truncates to 19 bytes and appends a final byte 4, so
the truncation offset is always 4 and, on the 8-byte counter messages, the
big-endian read recovers the counter's low 32 bits.  Satisfies `Hotp.wf` at
algorithm SHA-1. -/
def mockHmac (msg : List Nat) : List Nat :=
  (msg.map (fun b => b % 256) ++ List.replicate 20 0).take 19 ++ [4]

/-- Concrete external key-derivation collaborator built on `mockHmac`. -/
def mockRingHmac (_alg : Algorithm) (secret msg : List Nat) : List Nat :=
  mockHmac (secret ++ msg)

/-- Concrete HOTP engine over `mockHmac` (SHA-1 signature length). -/
def mockHotp : Hotp :=
  { alg := Algorithm.SHA1, hmac := mockHmac }

/-- Concrete TOTP engine over `mockHotp` with the default `skew = 1`,
`window = 30`. -/
def mockTotp : TOTP :=
  { inner := mockHotp, skew := 1, window := 30 }

/-- Concrete TOTP engine with `skew = 0` (no tolerance), as the caller may
configure after construction. -/
def mockTotpNoSkew : TOTP :=
  { inner := mockHotp, skew := 0, window := 30 }

/-! Helper lemmas about the digit fold, the parser and the renderer. -/

theorem charsValFrom_nil (a : Nat) : charsValFrom a [] = a := rfl

theorem charsValFrom_cons (a : Nat) (c : Char) (s : List Char) :
    charsValFrom a (c :: s) = charsValFrom (a * 10 + (c.toNat - 48)) s := rfl

theorem charsValFrom_append (a : Nat) (s u : List Char) :
    charsValFrom a (s ++ u) = charsValFrom (charsValFrom a s) u :=
  List.foldl_append _ _ s u

theorem charsVal_eq (s : List Char) : charsVal s = charsValFrom 0 s := rfl

theorem charsValFrom_le (s : List Char) : ∀ a : Nat, a ≤ charsValFrom a s := by
  induction s with
  | nil => intro a; exact Nat.le_refl a
  | cons c cs ih =>
    intro a
    rw [charsValFrom_cons]
    exact Nat.le_trans (by omega) (ih (a * 10 + (c.toNat - 48)))

theorem parseDigitsAcc_eq_some (s : List Char) :
    ∀ a : Nat, (∀ c ∈ s, 48 ≤ c.toNat ∧ c.toNat ≤ 57) →
      charsValFrom a s < 2 ^ 32 → parseDigitsAcc s a = some (charsValFrom a s) := by
  induction s with
  | nil => intro a _ _; rfl
  | cons c cs ih =>
    intro a hdig hlt
    have hc : 48 ≤ c.toNat ∧ c.toNat ≤ 57 := hdig c (by simp)
    rw [charsValFrom_cons] at hlt ⊢
    have hacc : a * 10 + (c.toNat - 48) ≤ charsValFrom (a * 10 + (c.toNat - 48)) cs :=
      charsValFrom_le cs _
    simp only [parseDigitsAcc]
    rw [if_pos hc, if_pos (by omega)]
    exact ih _ (fun x hx => hdig x (by simp [hx])) hlt

theorem digitChar_toNat (m : Nat) (hm : m < 10) : (Nat.digitChar m).toNat = 48 + m := by
  interval_cases m <;> rfl

theorem decChars_ne_nil (fuel n : Nat) : decChars (fuel + 1) n ≠ [] := by
  simp only [decChars]
  by_cases h10 : n < 10
  · rw [if_pos h10]; simp
  · rw [if_neg h10]; simp

theorem decChars_digits (fuel : Nat) :
    ∀ n : Nat, ∀ c ∈ decChars fuel n, 48 ≤ c.toNat ∧ c.toNat ≤ 57 := by
  induction fuel with
  | zero => intro n c hc; simp [decChars] at hc
  | succ fuel ih =>
    intro n c hc
    simp only [decChars] at hc
    by_cases h10 : n < 10
    · rw [if_pos h10] at hc
      simp at hc
      subst hc
      rw [digitChar_toNat n h10]
      omega
    · rw [if_neg h10] at hc
      rcases List.mem_append.1 hc with hc | hc
      · exact ih _ c hc
      · simp at hc
        subst hc
        have hm : n % 10 < 10 := Nat.mod_lt n (by norm_num)
        rw [digitChar_toNat _ hm]
        omega

theorem decChars_val (fuel : Nat) :
    ∀ n : Nat, n < 10 ^ fuel → ∀ a : Nat,
      charsValFrom a (decChars fuel n) = a * 10 ^ (decChars fuel n).length + n := by
  induction fuel with
  | zero =>
    intro n hn a
    have hn0 : n = 0 := by omega
    subst hn0
    simp [decChars, charsValFrom_nil]
  | succ fuel ih =>
    intro n hn a
    by_cases h10 : n < 10
    · simp only [decChars, if_pos h10]
      rw [charsValFrom_cons, charsValFrom_nil]
      rw [digitChar_toNat n h10]
      simp
    · simp only [decChars, if_neg h10]
      have hdiv : n / 10 < 10 ^ fuel := by
        rw [Nat.div_lt_iff_lt_mul (by norm_num)]
        calc n < 10 ^ (fuel + 1) := hn
        _ = 10 ^ fuel * 10 := by rw [pow_succ]
      rw [charsValFrom_append, ih (n / 10) hdiv a]
      rw [charsValFrom_cons, charsValFrom_nil]
      have hm : n % 10 < 10 := Nat.mod_lt n (by norm_num)
      rw [digitChar_toNat _ hm]
      rw [List.length_append, List.length_singleton]
      calc (a * 10 ^ (decChars fuel (n / 10)).length + n / 10) * 10 + (48 + n % 10 - 48)
          = a * 10 ^ ((decChars fuel (n / 10)).length + 1) + (10 * (n / 10) + n % 10) := by
            rw [pow_succ]; ring_nf; omega
        _ = a * 10 ^ ((decChars fuel (n / 10)).length + 1) + n := by rw [Nat.div_add_mod]

theorem decChars_length_le (fuel : Nat) :
    ∀ n w : Nat, n < 10 ^ w → 1 ≤ w → (decChars fuel n).length ≤ w := by
  induction fuel with
  | zero => intro n w _ _; simp [decChars]
  | succ fuel ih =>
    intro n w hn hw
    simp only [decChars]
    by_cases h10 : n < 10
    · rw [if_pos h10]; simpa using hw
    · rw [if_neg h10]
      have hw2 : 2 ≤ w := by
        rcases Nat.lt_or_ge w 2 with hlt | hge
        · interval_cases w
          · exfalso; omega
        · exact hge
      have hdiv : n / 10 < 10 ^ (w - 1) := by
        rw [Nat.div_lt_iff_lt_mul (by norm_num)]
        have hp : 10 ^ (w - 1) * 10 = 10 ^ w := by
          rw [← pow_succ]
          congr 1
          omega
        rw [hp]
        exact hn
      have hrec := ih (n / 10) (w - 1) hdiv (by omega)
      rw [List.length_append, List.length_singleton]
      omega

theorem natDecChars_ne_nil (n : Nat) : natDecChars n ≠ [] := decChars_ne_nil n n

theorem natDecChars_digits (n : Nat) :
    ∀ c ∈ natDecChars n, 48 ≤ c.toNat ∧ c.toNat ≤ 57 := decChars_digits (n + 1) n

theorem nat_lt_pow10_self (n : Nat) : n < 10 ^ (n + 1) :=
  Nat.lt_of_lt_of_le (Nat.lt_pow_self (by norm_num) n)
    (Nat.pow_le_pow_right (by norm_num) (Nat.le_succ n))

theorem natDecChars_val (n : Nat) : charsVal (natDecChars n) = n := by
  rw [charsVal_eq, natDecChars, decChars_val (n + 1) n (nat_lt_pow10_self n) 0]
  simp

theorem natDecChars_length_le (n w : Nat) (h : n < 10 ^ w) (hw : 1 ≤ w) :
    (natDecChars n).length ≤ w := decChars_length_le (n + 1) n w h hw

theorem charsValFrom_replicate_zero (k : Nat) :
    charsValFrom 0 (List.replicate k '0') = 0 := by
  induction k with
  | zero => rfl
  | succ k ih =>
    rw [List.replicate_succ, charsValFrom_cons]
    exact ih

theorem fmtZeroPad_spec (n w : Nat) (hn : n < 10 ^ w) (hw : 1 ≤ w) :
    (fmtZeroPad n w).length = w ∧
      (∀ c ∈ fmtZeroPad n w, 48 ≤ c.toNat ∧ c.toNat ≤ 57) ∧
      charsVal (fmtZeroPad n w) = n := by
  have hlen := natDecChars_length_le n w hn hw
  refine ⟨?_, ?_, ?_⟩
  · rw [fmtZeroPad, zeroPadTo, List.length_append, List.length_replicate]
    omega
  · intro c hc
    rw [fmtZeroPad, zeroPadTo] at hc
    rcases List.mem_append.1 hc with hc | hc
    · have hc0 : c = '0' := List.eq_of_mem_replicate hc
      subst hc0
      decide
    · exact natDecChars_digits n c hc
  · rw [fmtZeroPad, zeroPadTo, charsVal_eq, charsValFrom_append,
      charsValFrom_replicate_zero, ← charsVal_eq, natDecChars_val]

theorem u32FromStrRadix10_fmtZeroPad (n w : Nat) (hn : n < 10 ^ w) (hw : 1 ≤ w)
    (h32 : n < 2 ^ 32) : u32FromStrRadix10 (fmtZeroPad n w) = some n := by
  obtain ⟨hlen, hdig, hval⟩ := fmtZeroPad_spec n w hn hw
  obtain ⟨c, cs, hcons⟩ : ∃ c cs, fmtZeroPad n w = c :: cs := by
    cases h : fmtZeroPad n w with
    | nil => rw [h] at hlen; simp at hlen; omega
    | cons c cs => exact ⟨c, cs, rfl⟩
  have hc : 48 ≤ c.toNat ∧ c.toNat ≤ 57 := hdig c (by rw [hcons]; simp)
  have hne : c ≠ '+' := by
    intro he
    subst he
    revert hc
    decide
  have hp : parseDigitsAcc (fmtZeroPad n w) 0 = some n := by
    have := parseDigitsAcc_eq_some (fmtZeroPad n w) 0 hdig
      (by rw [← charsVal_eq, hval]; exact h32)
    rw [← charsVal_eq, hval] at this
    exact this
  rw [hcons]
  simp only [u32FromStrRadix10]
  rw [if_neg hne, ← hcons]
  exact hp

/-! Helper lemmas about wrapping arithmetic, the truncation bound and the
concrete mock collaborator. -/

theorem wadd_eq_add (a b : Nat) (h : a + b < 2 ^ 64) : wadd a b = a + b :=
  Nat.mod_eq_of_lt h

theorem wsub_eq_sub (a b : Nat) (hb : b ≤ a) (ha : a < 2 ^ 64) : wsub a b = a - b := by
  rw [wsub, Nat.mod_eq_of_lt (Nat.lt_of_le_of_lt hb ha)]
  have h1 : a + (2 ^ 64 - b) = 2 ^ 64 + (a - b) := by omega
  rw [h1, Nat.add_mod_left]
  exact Nat.mod_eq_of_lt (by omega)

theorem pow10_mod_pow232 (d : Nat) (hd : d ≤ 9) : 10 ^ d % 2 ^ 32 = 10 ^ d := by
  interval_cases d <;> decide

theorem generate_num_lt (h : Hotp) (c d : Nat) (hd : d ≤ 9) :
    h.generate_num c d < 10 ^ d := by
  rw [Hotp.generate_num, pow10_mod_pow232 d hd]
  exact Nat.mod_lt _ (Nat.pos_pow_of_pos d (by norm_num))

theorem mockHmac_length (msg : List Nat) : (mockHmac msg).length = 20 := by
  rw [mockHmac, List.length_append, List.length_take, List.length_append,
    List.length_map, List.length_replicate, List.length_singleton]
  omega

theorem mockHotp_wf : mockHotp.wf := by
  intro msg
  constructor
  · exact mockHmac_length msg
  · intro b hb
    rw [mockHotp] at hb
    simp only [mockHmac] at hb
    rcases List.mem_append.1 hb with hb | hb
    · have hb2 := List.take_subset 19 _ hb
      rcases List.mem_append.1 hb2 with hb3 | hb3
      · obtain ⟨x, _, hx⟩ := List.mem_map.1 hb3
        rw [← hx]
        exact Nat.mod_lt x (by norm_num)
      · rw [List.eq_of_mem_replicate hb3]
        norm_num
    · simp at hb
      rw [hb]
      norm_num

/-! Helper characterizations of the two verification functions. -/

theorem verifyOffsets_eq_true_iff (t : TOTP) (e l time : Nat) :
    ∀ k off : Nat,
      TOTP.verifyOffsets t e l time off k = true ↔
        ∃ j : Nat, off ≤ j ∧ j < off + k ∧
          (t.inner.generate_num (wadd time j / t.window) l = e ∨
            t.inner.generate_num (wsub time j / t.window) l = e) := by
  intro k
  induction k with
  | zero =>
    intro off
    simp only [TOTP.verifyOffsets]
    constructor
    · intro hfalse; cases hfalse
    · rintro ⟨j, h1, h2, _⟩; omega
  | succ k ih =>
    intro off
    simp only [TOTP.verifyOffsets]
    by_cases h1 : t.inner.generate_num (wadd time off / t.window) l = e
    · simp only [h1, beq_self_eq_true, if_true, true_iff]
      exact ⟨off, Nat.le_refl off, by omega, Or.inl h1⟩
    · have h1b : (t.inner.generate_num (wadd time off / t.window) l == e) = false := by
        simp [h1]
      rw [h1b]
      simp only [Bool.false_eq_true, if_false]
      by_cases h2 : t.inner.generate_num (wsub time off / t.window) l = e
      · simp only [h2, beq_self_eq_true, if_true, true_iff]
        exact ⟨off, Nat.le_refl off, by omega, Or.inr h2⟩
      · have h2b : (t.inner.generate_num (wsub time off / t.window) l == e) = false := by
          simp [h2]
        rw [h2b]
        simp only [Bool.false_eq_true, if_false]
        rw [ih (off + 1)]
        constructor
        · rintro ⟨j, hj1, hj2, hj3⟩
          exact ⟨j, by omega, by omega, hj3⟩
        · rintro ⟨j, hj1, hj2, hj3⟩
          refine ⟨j, ?_, by omega, hj3⟩
          rcases Nat.eq_or_lt_of_le hj1 with heq | hlt
          · exfalso
            subst heq
            rcases hj3 with hj3 | hj3
            · exact h1 hj3
            · exact h2 hj3
          · omega

theorem verify_eq_true_iff (t : TOTP) (token : String) (time : Nat) :
    t.verify token time = true ↔
      ∃ e : Nat, u32FromStrRadix10 token.data = some e ∧
        (t.inner.generate_num (time / t.window) (token.data.length % 256) = e ∨
          ∃ off : Nat, 1 ≤ off ∧ off ≤ t.skew ∧
            (t.inner.generate_num (wadd time off / t.window) (token.data.length % 256) = e ∨
              t.inner.generate_num (wsub time off / t.window) (token.data.length % 256) = e)) := by
  rw [TOTP.verify]
  cases hp : u32FromStrRadix10 token.data with
  | none =>
    constructor
    · intro hfalse; exact Bool.noConfusion hfalse
    · rintro ⟨e, he, _⟩; cases he
  | some e0 =>
    show (if (t.inner.generate_num (time / t.window) (token.data.length % 256) == e0) = true
        then true
        else TOTP.verifyOffsets t e0 (token.data.length % 256) time 1 t.skew) = true ↔ _
    by_cases hx : t.inner.generate_num (time / t.window) (token.data.length % 256) = e0
    · rw [if_pos (beq_iff_eq.mpr hx)]
      exact iff_of_true rfl ⟨e0, rfl, Or.inl hx⟩
    · rw [if_neg (fun hcon => hx (beq_iff_eq.mp hcon))]
      rw [verifyOffsets_eq_true_iff]
      constructor
      · rintro ⟨j, hj1, hj2, hj3⟩
        exact ⟨e0, rfl, Or.inr ⟨j, hj1, by omega, hj3⟩⟩
      · rintro ⟨e, he, hcase⟩
        have he0 : e0 = e := Option.some.inj he
        subst he0
        rcases hcase with hcase | ⟨off, ho1, ho2, ho3⟩
        · exact absurd hcase hx
        · exact ⟨off, ho1, by omega, ho3⟩

/-! Claim theorems. -/

/-- Claim C4: for every counter and digit count in 1..=9, `generate_num` is
the big-endian 32-bit integer read at offset `last signature byte & 0x0F`
with the sign bit cleared by `& 0x7fffffff`, reduced modulo `10 ^ digits`,
and the result always lies in the interval below `10 ^ digits`. -/
theorem hotp_generate_num_truncation (h : Hotp) (c d : Nat) (hd1 : 1 ≤ d) (hd9 : d ≤ 9) :
    h.generate_num c d =
      (beU32At (h.sign c) ((h.sign c).getD ((h.sign c).length - 1) 0 &&& 15) &&&
        0x7fffffff) % 10 ^ d ∧
      h.generate_num c d < 10 ^ d := by
  constructor
  · rw [Hotp.generate_num, pow10_mod_pow232 d hd9]
  · exact generate_num_lt h c d hd9

theorem hotp_generate_num_truncation_w :
    mockHotp.generate_num 0 6 =
      (beU32At (mockHotp.sign 0)
          ((mockHotp.sign 0).getD ((mockHotp.sign 0).length - 1) 0 &&& 15) &&&
        0x7fffffff) % 10 ^ 6 ∧
      mockHotp.generate_num 0 6 < 10 ^ 6 :=
  hotp_generate_num_truncation mockHotp 0 6 (by decide) (by decide)

/-- Claim C8: for every counter and every well-formed engine, the
dynamic-truncation offset satisfies `offset + 4 ≤ len(signature)`; the
signature length equals the algorithm's output length, which is at least
20 (20 for SHA-1, 32 for SHA-256, 64 for SHA-512). -/
theorem hotp_truncation_offset_bounds (h : Hotp) (c : Nat) (hw : h.wf) :
    ((h.sign c).getD ((h.sign c).length - 1) 0 &&& 15) + 4 ≤ (h.sign c).length ∧
      (h.sign c).length = h.alg.outLen ∧ 20 ≤ h.alg.outLen := by
  have hlen : (h.sign c).length = h.alg.outLen := (hw (u64be c)).1
  have hout : 20 ≤ h.alg.outLen := by
    cases h.alg <;> decide
  have hoff : (h.sign c).getD ((h.sign c).length - 1) 0 &&& 15 ≤ 15 :=
    Nat.and_le_right
  omega

theorem hotp_truncation_offset_bounds_w :
    ((mockHotp.sign 0).getD ((mockHotp.sign 0).length - 1) 0 &&& 15) + 4 ≤
        (mockHotp.sign 0).length ∧
      (mockHotp.sign 0).length = mockHotp.alg.outLen ∧ 20 ≤ mockHotp.alg.outLen :=
  hotp_truncation_offset_bounds mockHotp 0 mockHotp_wf

/-- Claim C5: for digit counts in 1..=9, `generate_to` writes exactly
`digits` ASCII decimal characters — never fewer, never more — namely the
decimal representation of `generate_num counter digits` left-padded with
zeros to exactly `digits` characters. -/
theorem hotp_generate_to_spec (h : Hotp) (c d : Nat) (hd1 : 1 ≤ d) (hd9 : d ≤ 9) :
    (h.generate_to c d).length = d ∧
      (∀ ch ∈ h.generate_to c d, 48 ≤ ch.toNat ∧ ch.toNat ≤ 57) ∧
      charsVal (h.generate_to c d) = h.generate_num c d ∧
      h.generate_to c d = zeroPadTo (natDecChars (h.generate_num c d)) d := by
  have hmod : d % 256 = d := Nat.mod_eq_of_lt (by omega)
  have hlt : h.generate_num c d < 10 ^ d := generate_num_lt h c d hd9
  have heq : h.generate_to c d = fmtZeroPad (h.generate_num c d) d := by
    rw [Hotp.generate_to, hmod]
  obtain ⟨h1, h2, h3⟩ := fmtZeroPad_spec (h.generate_num c d) d hlt hd1
  refine ⟨?_, ?_, ?_, ?_⟩
  · rw [heq]; exact h1
  · rw [heq]; exact h2
  · rw [heq]; exact h3
  · rw [heq, fmtZeroPad]

theorem hotp_generate_to_spec_w :
    (mockHotp.generate_to 0 6).length = 6 ∧
      (∀ ch ∈ mockHotp.generate_to 0 6, 48 ≤ ch.toNat ∧ ch.toNat ≤ 57) ∧
      charsVal (mockHotp.generate_to 0 6) = mockHotp.generate_num 0 6 ∧
      mockHotp.generate_to 0 6 = zeroPadTo (natDecChars (mockHotp.generate_num 0 6)) 6 :=
  hotp_generate_to_spec mockHotp 0 6 (by decide) (by decide)

/-- Claim C7: the TOTP counter is `time / window` by integer (floor)
division, each TOTP operation delegates to the corresponding HOTP operation
at that counter, and two times with the same counter render identical
codes. -/
theorem totp_delegation (t : TOTP) (time t1 t2 d len : Nat)
    (hsame : t1 / t.window = t2 / t.window) :
    t.sign time = t.inner.sign (time / t.window) ∧
      t.generate_num time d = t.inner.generate_num (time / t.window) d ∧
      t.generate_to time len = t.inner.generate_to (time / t.window) len ∧
      t.generate_to t1 len = t.generate_to t2 len := by
  refine ⟨rfl, rfl, rfl, ?_⟩
  rw [TOTP.generate_to, TOTP.generate_to, hsame]

theorem totp_delegation_w :
    mockTotp.sign 45 = mockTotp.inner.sign (45 / mockTotp.window) ∧
      mockTotp.generate_num 45 6 = mockTotp.inner.generate_num (45 / mockTotp.window) 6 ∧
      mockTotp.generate_to 45 6 = mockTotp.inner.generate_to (45 / mockTotp.window) 6 ∧
      mockTotp.generate_to 30 6 = mockTotp.generate_to 59 6 :=
  totp_delegation mockTotp 45 30 59 6 6 (by decide)

/-- Claim C6 (counterexample): constructing an engine from the empty secret
is not rejected — `Hotp.new` silently returns the engine whose HMAC context
is keyed by the zero-length secret. -/
theorem hotp_new_empty_secret_cex :
    Hotp.new mockRingHmac Algorithm.SHA1 [] =
      { alg := Algorithm.SHA1, hmac := mockRingHmac Algorithm.SHA1 [] } := rfl

/-- Claim C6 (amended): `Hotp::new` performs no emptiness check in release
builds (only a debug assertion exists, and a debug build would panic rather
than return an error) and its return type has no error path: for every
secret, the empty one included, it returns the engine keyed by that
secret. -/
theorem hotp_new_no_empty_check
    (ringHmac : Algorithm → List Nat → List Nat → List Nat)
    (alg : Algorithm) (secret : List Nat) :
    Hotp.new ringHmac alg secret = { alg := alg, hmac := ringHmac alg secret } ∧
      Hotp.new ringHmac alg [] = { alg := alg, hmac := ringHmac alg [] } :=
  ⟨rfl, rfl⟩

/-- Claim C10: `u32::from_str_radix` accepts one leading plus sign, so the
token "+996554" — which contains a non-digit character — is not rejected at
the parse step: `verify` compares the parsed value 996554 against
`generate_num counter 7`, the 7 counting the plus sign in the digit width,
and on the mock engine at counter 996554 it returns true. -/
theorem hotp_verify_plus_prefix (h : Hotp) (c : Nat) :
    u32FromStrRadix10 (String.mk ['+', '9', '9', '6', '5', '5', '4']).data =
        some 996554 ∧
      (∃ ch ∈ (String.mk ['+', '9', '9', '6', '5', '5', '4']).data,
        ¬(48 ≤ ch.toNat ∧ ch.toNat ≤ 57)) ∧
      h.verify (String.mk ['+', '9', '9', '6', '5', '5', '4']) c =
        (h.generate_num c 7 == 996554) ∧
      mockHotp.verify (String.mk ['+', '9', '9', '6', '5', '5', '4']) 996554 = true := by
  refine ⟨by decide, ⟨'+', by decide, by decide⟩, rfl, by decide⟩

/-- Claim C9: construction establishes `window = 30 > 0` and `skew = 1`;
with a positive window the counter `time / window` is the floor quotient
(`window * (time / window) ≤ time < window * (time / window) + window`, so
the division is well defined), and with `skew = 0` verification checks only
the exact window. -/
theorem totp_step_invariants
    (ringHmac : Algorithm → List Nat → List Nat → List Nat)
    (alg : Algorithm) (secret : List Nat) (t : TOTP) (token : String) (time : Nat)
    (hwin : 0 < t.window) (hskew : t.skew = 0) :
    (TOTP.new ringHmac alg secret).window = 30 ∧
      (TOTP.new ringHmac alg secret).skew = 1 ∧
      0 < (TOTP.new ringHmac alg secret).window ∧
      t.window * (time / t.window) ≤ time ∧
      time < t.window * (time / t.window) + t.window ∧
      t.verify token time =
        (match u32FromStrRadix10 token.data with
          | some e =>
            t.inner.generate_num (time / t.window) (token.data.length % 256) == e
          | none => false) := by
  have hdm := Nat.div_add_mod time t.window
  have hml := Nat.mod_lt time hwin
  refine ⟨rfl, rfl, by show (0 : Nat) < 30; norm_num, by omega, by omega, ?_⟩
  rw [TOTP.verify]
  cases hp : u32FromStrRadix10 token.data with
  | none => rfl
  | some e0 =>
    show (if (t.inner.generate_num (time / t.window) (token.data.length % 256) == e0) = true
        then true
        else TOTP.verifyOffsets t e0 (token.data.length % 256) time 1 t.skew) =
      (t.inner.generate_num (time / t.window) (token.data.length % 256) == e0)
    rw [hskew]
    cases hb : t.inner.generate_num (time / t.window) (token.data.length % 256) == e0 with
    | true => rfl
    | false => rfl

theorem totp_step_invariants_w :
    (TOTP.new mockRingHmac Algorithm.SHA1 [1]).window = 30 ∧
      (TOTP.new mockRingHmac Algorithm.SHA1 [1]).skew = 1 ∧
      0 < (TOTP.new mockRingHmac Algorithm.SHA1 [1]).window ∧
      mockTotpNoSkew.window * (45 / mockTotpNoSkew.window) ≤ 45 ∧
      45 < mockTotpNoSkew.window * (45 / mockTotpNoSkew.window) + mockTotpNoSkew.window ∧
      mockTotpNoSkew.verify (String.mk ['1', '2', '3']) 45 =
        (match u32FromStrRadix10 (String.mk ['1', '2', '3']).data with
          | some e =>
            mockTotpNoSkew.inner.generate_num (45 / mockTotpNoSkew.window)
              ((String.mk ['1', '2', '3']).data.length % 256) == e
          | none => false) :=
  totp_step_invariants mockRingHmac Algorithm.SHA1 [1] mockTotpNoSkew
    (String.mk ['1', '2', '3']) 45 (by decide) (by decide)

/-- Claim C3 (counterexample): the token "+0" contains a non-digit character
and fails the spec-side digits-only parse, yet `Hotp::verify` does not
return false on it: on the mock engine at counter 0 it returns true. -/
theorem hotp_verify_nondigit_cex :
    ('+' ∈ (String.mk ['+', '0']).data ∧
        ¬(48 ≤ Char.toNat '+' ∧ Char.toNat '+' ≤ 57)) ∧
      specDigitsParse (String.mk ['+', '0']).data = none ∧
      mockHotp.verify (String.mk ['+', '0']) 0 = true := by
  refine ⟨⟨by decide, by decide⟩, by decide, by decide⟩

/-- Claim C3 (amended): `verify` returns true iff the token parses under
`u32::from_str_radix` semantics — which additionally accept one leading plus
sign — to exactly `generate_num counter (length token)`; it equals the
comparison on parse success and false on parse failure, with no other
outcome; and on digits-only tokens the Rust parse agrees with the spec-side
digits-only parse. -/
theorem hotp_verify_parse_iff (h : Hotp) (token : String) (c : Nat)
    (s : List Char) (v : Nat) (hs : specDigitsParse s = some v) :
    (h.verify token c = true ↔
      ∃ e : Nat, u32FromStrRadix10 token.data = some e ∧
        h.generate_num c (token.data.length % 256) = e) ∧
      h.verify token c =
        (match u32FromStrRadix10 token.data with
          | some e => h.generate_num c (token.data.length % 256) == e
          | none => false) ∧
      u32FromStrRadix10 s = some v := by
  refine ⟨?_, rfl, ?_⟩
  · rw [Hotp.verify]
    cases hp : u32FromStrRadix10 token.data with
    | none =>
      constructor
      · intro hfalse; exact Bool.noConfusion hfalse
      · rintro ⟨e, he, _⟩; cases he
    | some e0 =>
      show (h.generate_num c (token.data.length % 256) == e0) = true ↔ _
      rw [beq_iff_eq]
      constructor
      · intro hx; exact ⟨e0, rfl, hx⟩
      · rintro ⟨e, he, hx⟩
        have he0 : e0 = e := Option.some.inj he
        subst he0
        exact hx
  · rw [specDigitsParse] at hs
    by_cases hcond :
        s ≠ [] ∧ (∀ c2 ∈ s, 48 ≤ c2.toNat ∧ c2.toNat ≤ 57) ∧ charsVal s < 2 ^ 32
    · rw [if_pos hcond] at hs
      obtain ⟨hne, hdig, hlt⟩ := hcond
      have hv : v = charsVal s := (Option.some.inj hs).symm
      subst hv
      obtain ⟨c0, cs, hcons⟩ : ∃ c0 cs, s = c0 :: cs := by
        cases s with
        | nil => exact absurd rfl hne
        | cons c0 cs => exact ⟨c0, cs, rfl⟩
      have hc0 : 48 ≤ c0.toNat ∧ c0.toNat ≤ 57 := hdig c0 (by rw [hcons]; simp)
      have hne2 : c0 ≠ '+' := by
        intro he
        subst he
        revert hc0
        decide
      have hp : parseDigitsAcc s 0 = some (charsVal s) :=
        parseDigitsAcc_eq_some s 0 hdig (by rw [← charsVal_eq]; exact hlt)
      rw [hcons]
      simp only [u32FromStrRadix10]
      rw [if_neg hne2, ← hcons]
      exact hp
    · rw [if_neg hcond] at hs
      exact Option.noConfusion hs

theorem hotp_verify_parse_iff_w :
    (mockHotp.verify (String.mk ['0', '0']) 5 = true ↔
      ∃ e : Nat, u32FromStrRadix10 (String.mk ['0', '0']).data = some e ∧
        mockHotp.generate_num 5 ((String.mk ['0', '0']).data.length % 256) = e) ∧
      mockHotp.verify (String.mk ['0', '0']) 5 =
        (match u32FromStrRadix10 (String.mk ['0', '0']).data with
          | some e => mockHotp.generate_num 5 ((String.mk ['0', '0']).data.length % 256) == e
          | none => false) ∧
      u32FromStrRadix10 ['1', '2'] = some 12 :=
  hotp_verify_parse_iff mockHotp (String.mk ['0', '0']) 5 ['1', '2'] 12 (by decide)

/-- Claim C1 (counterexample): on the mock engine with the default
`window = 30` and `skew = 1`, the token rendered at time 0 has its counter
within one step of the counter of time 59, yet verification at time 59
fails — the loop offsets are seconds, not steps. -/
theorem totp_verify_skew_steps_cex :
    mockTotp.generate_to 0 6 = ['0', '0', '0', '0', '0', '0'] ∧
      0 / mockTotp.window + 1 = 59 / mockTotp.window ∧
      1 ≤ mockTotp.skew ∧
      mockTotp.verify (String.mk ['0', '0', '0', '0', '0', '0']) 59 = false := by
  refine ⟨by decide, by decide, by decide, by decide⟩

/-- Claim C1 (amended): after the exact window, `verify` consults exactly
the counters `(time + off) / window` and `(time - off) / window` for
`off` in `1..=skew` — offsets in seconds, with wrapping subtraction — and
consequently a token generated at any `t2` within `skew` seconds of `time`
verifies. -/
theorem totp_verify_skew_seconds (t : TOTP) (token : String) (time t2 d : Nat)
    (hwin : 0 < t.window) (hd1 : 1 ≤ d) (hd9 : d ≤ 9)
    (htime : time < 2 ^ 64) (ht2 : t2 < 2 ^ 64)
    (hnear : t2 ≤ time ∧ time - t2 ≤ t.skew ∨ time ≤ t2 ∧ t2 - time ≤ t.skew) :
    (t.verify token time = true ↔
      ∃ e : Nat, u32FromStrRadix10 token.data = some e ∧
        (t.inner.generate_num (time / t.window) (token.data.length % 256) = e ∨
          ∃ off : Nat, 1 ≤ off ∧ off ≤ t.skew ∧
            (t.inner.generate_num (wadd time off / t.window) (token.data.length % 256) = e ∨
              t.inner.generate_num (wsub time off / t.window) (token.data.length % 256) = e))) ∧
      t.verify (String.mk (t.generate_to t2 d)) time = true := by
  constructor
  · exact verify_eq_true_iff t token time
  · have hvlt : t.inner.generate_num (t2 / t.window) d < 10 ^ d :=
      generate_num_lt _ _ _ hd9
    have hv32 : t.inner.generate_num (t2 / t.window) d < 2 ^ 32 := by
      have h1 : (10 : Nat) ^ d ≤ 10 ^ 9 := Nat.pow_le_pow_right (by norm_num) hd9
      have h2 : (10 : Nat) ^ 9 < 2 ^ 32 := by norm_num
      omega
    have hmod : d % 256 = d := Nat.mod_eq_of_lt (by omega)
    have hgen : t.generate_to t2 d = fmtZeroPad (t.inner.generate_num (t2 / t.window) d) d := by
      rw [TOTP.generate_to, Hotp.generate_to, hmod]
    have hdata : (String.mk (t.generate_to t2 d)).data =
        fmtZeroPad (t.inner.generate_num (t2 / t.window) d) d := hgen
    have hlen : (fmtZeroPad (t.inner.generate_num (t2 / t.window) d) d).length = d :=
      (fmtZeroPad_spec _ d hvlt hd1).1
    have hparse : u32FromStrRadix10 (fmtZeroPad (t.inner.generate_num (t2 / t.window) d) d) =
        some (t.inner.generate_num (t2 / t.window) d) :=
      u32FromStrRadix10_fmtZeroPad _ d hvlt hd1 hv32
    rw [verify_eq_true_iff]
    refine ⟨t.inner.generate_num (t2 / t.window) d, ?_, ?_⟩
    · rw [hdata]
      exact hparse
    · rw [hdata, hlen, hmod]
      rcases hnear with ⟨hle, hsk⟩ | ⟨hle, hsk⟩
      · rcases Nat.eq_or_lt_of_le hle with heq | hlt2
        · left
          rw [heq]
        · right
          refine ⟨time - t2, by omega, by omega, Or.inr ?_⟩
          rw [wsub_eq_sub time (time - t2) (by omega) htime]
          have hsub : time - (time - t2) = t2 := by omega
          rw [hsub]
      · rcases Nat.eq_or_lt_of_le hle with heq | hlt2
        · left
          rw [heq]
        · right
          refine ⟨t2 - time, by omega, by omega, Or.inl ?_⟩
          rw [wadd_eq_add time (t2 - time) (by omega)]
          have hsum : time + (t2 - time) = t2 := by omega
          rw [hsum]

theorem totp_verify_skew_seconds_w :
    (mockTotp.verify (String.mk ['9', '9', '9', '9', '9', '9']) 59 = true ↔
      ∃ e : Nat, u32FromStrRadix10 (String.mk ['9', '9', '9', '9', '9', '9']).data = some e ∧
        (mockTotp.inner.generate_num (59 / mockTotp.window)
            ((String.mk ['9', '9', '9', '9', '9', '9']).data.length % 256) = e ∨
          ∃ off : Nat, 1 ≤ off ∧ off ≤ mockTotp.skew ∧
            (mockTotp.inner.generate_num (wadd 59 off / mockTotp.window)
                ((String.mk ['9', '9', '9', '9', '9', '9']).data.length % 256) = e ∨
              mockTotp.inner.generate_num (wsub 59 off / mockTotp.window)
                ((String.mk ['9', '9', '9', '9', '9', '9']).data.length % 256) = e))) ∧
      mockTotp.verify (String.mk (mockTotp.generate_to 58 6)) 59 = true :=
  totp_verify_skew_seconds mockTotp (String.mk ['9', '9', '9', '9', '9', '9']) 59 58 6
    (by decide) (by decide) (by decide) (by decide) (by decide) (Or.inl (by decide))

/-- Claim C2 is violated by the code: at `time = 0`, offset 1 the release
build computes `0u64 - 1`, which wraps to `2 ^ 64 - 1` (a debug build would
panic); the wrapped counter `(2 ^ 64 - 1) / 30` is consulted, and a token
matching that counter — one that no honest time below 60 generates — is
accepted, rather than the window being skipped or clamped. -/
theorem totp_verify_time_underflow_wrap :
    wsub 0 1 = 2 ^ 64 - 1 ∧
      wsub 0 1 / mockTotp.window = 614891469123651720 ∧
      mockTotp.inner.generate_num 614891469123651720 6 = 165576 ∧
      mockTotp.verify (String.mk ['1', '6', '5', '5', '7', '6']) 0 = true ∧
      (∀ tm : Nat, tm < 60 → mockTotp.generate_num tm 6 ≠ 165576) := by
  refine ⟨by decide, by decide, by decide, by decide, by decide⟩

end Otpshka
